import Mathlib

/-!
Verification of the SLCSP pipeline (src/main.go).

The source file holds two versions of the program.  The second version
(lines 195-396) is embedded below under the source's own names
(`concatRateArea`, `RateData`, `parseSlcsp`, `parseZips`, `parsePlans`,
`mainOutput` for `main`); the first version (lines 1-194) differs only in
`parseSlcsp` (it builds the keyed map directly) and in the output loop
(it ranges over the map instead of the ordered slice), and is embedded as
`parseSlcspV1` / `mainOutputV1`.

Modelling choices, each noted at its definition:
  - a CSV record is a `List String`; the `encoding/csv` reader with
    `FieldsPerRecord = n` is modelled by per-record length checks, and an
    unreadable file by the `none` case of an `Option (List Row)` input;
  - the Go `map[string]*RateData` is an association list in insertion
    order with unique keys; Go's randomized iteration order means only
    order-insensitive statements are made about loops ranging over it;
  - a `float64` rate is modelled as the exact value of its decimal
    numeral, a `Decimal` (an integer mantissa with a power-of-ten scale),
    ordered and compared by value; `strconv.ParseFloat` is a plain
    decimal parser and `Sprintf %.2f` rounds to centesimals, both exact
    on the decimal notation the data model describes.
-/

/-- The exact value `mant / 10 ^ fdigits` of a decimal numeral: the model
of a parsed `float64` premium.  Values are compared by cross
multiplication, so `1.5` and `1.50` are the same rate. -/
structure Decimal where
  mant : Int
  fdigits : Nat
deriving DecidableEq, Repr

instance : Inhabited Decimal := ⟨⟨0, 0⟩⟩

/-- Value order on decimals: `a.mant / 10 ^ a.fdigits ≤ b.mant / 10 ^ b.fdigits`
cleared of denominators. -/
def Decimal.le (a b : Decimal) : Prop :=
  a.mant * (10 : Int) ^ b.fdigits ≤ b.mant * (10 : Int) ^ a.fdigits

instance : DecidableRel Decimal.le :=
  fun a b =>
    decidable_of_iff (a.mant * (10 : Int) ^ b.fdigits ≤ b.mant * (10 : Int) ^ a.fdigits) Iff.rfl

instance : IsTotal Decimal Decimal.le :=
  ⟨fun a b => le_total (a.mant * (10 : Int) ^ b.fdigits) (b.mant * (10 : Int) ^ a.fdigits)⟩

instance : IsTrans Decimal Decimal.le := by
  constructor
  intro a b c h1 h2
  unfold Decimal.le at h1 h2 ⊢
  have pa : (0 : Int) < (10 : Int) ^ a.fdigits := pow_pos (by norm_num) _
  have pb : (0 : Int) < (10 : Int) ^ b.fdigits := pow_pos (by norm_num) _
  have pc : (0 : Int) < (10 : Int) ^ c.fdigits := pow_pos (by norm_num) _
  have key : a.mant * (10 : Int) ^ c.fdigits * (10 : Int) ^ b.fdigits ≤
      c.mant * (10 : Int) ^ a.fdigits * (10 : Int) ^ b.fdigits := by nlinarith
  exact le_of_mul_le_mul_right key pb

instance {e a : Type} [DecidableEq e] [DecidableEq a] : DecidableEq (Except e a)
  | Except.ok x, Except.ok y => by
    cases decEq x y with
    | isTrue h => exact isTrue (by rw [h])
    | isFalse h => exact isFalse (by intro hc; cases hc; exact h rfl)
  | Except.ok x, Except.error y => isFalse (by intro hc; cases hc)
  | Except.error x, Except.ok y => isFalse (by intro hc; cases hc)
  | Except.error x, Except.error y => by
    cases decEq x y with
    | isTrue h => exact isTrue (by rw [h])
    | isFalse h => exact isFalse (by intro hc; cases hc; exact h rfl)

/-- One CSV record: a list of string fields. -/
abbrev Row := List String

/-- Field access in a record.  The csv reader guarantees the field count,
so the default is never hit on well-formed rows. -/
def fld (r : Row) (i : Nat) : String := r.getD i ""

/-- The error taxonomy of the design: a source-read failure (missing file,
wrong field count) or a rate-parse failure (`strconv.ParseFloat` error). -/
inductive PipelineError where
  | SourceReadError
  | RateParseError
deriving DecidableEq, Repr

/-- Go struct `RateData` (main.go lines 211-214).  The zero value has
`RateArea = ""` and an empty `Rates` slice; rates are parsed decimals. -/
structure RateData where
  RateArea : String
  Rates : List Decimal
deriving DecidableEq, Repr

/-- The zero value `RateData\x7b\x7d` used when a target zip is loaded. -/
def RateData.emptyRec : RateData := { RateArea := "", Rates := [] }

/-- `concatRateArea` (main.go lines 216-219): `Sprintf "%s %s"`. -/
def concatRateArea (state : String) (code : String) : String :=
  state ++ " " ++ code

/-- The Go `map[string]*RateData`, modelled as an association list in
insertion order with unique keys. -/
abbrev AMap := List (String × RateData)

/-- Map lookup. -/
def afind : AMap → String → Option RateData
  | [], _ => none
  | (k, v) :: m, z => if k = z then some v else afind m z

/-- Go assignment `m[k] = v`: replace the existing binding, else append. -/
def aset : AMap → String → RateData → AMap
  | [], k, v => [(k, v)]
  | (k0, v0) :: m, k, v =>
    if k0 = k then (k, v) :: m else (k0, v0) :: aset m k v

/-- Mutation of the record behind key `k` (a write through the Go map's
stored pointer). -/
def aupd : AMap → String → (RateData → RateData) → AMap
  | [], _, _ => []
  | (k0, v0) :: m, k, f =>
    if k0 = k then (k0, f v0) :: m else (k0, v0) :: aupd m k f

/-- The key list of the map. -/
def akeys (m : AMap) : List String := m.map Prod.fst

/-- The space character, written by code point. -/
def spaceChar : Char := Char.ofNat 32

/-- Consume leading decimal digits: accumulated value, digit count, rest. -/
def takeDigits : Nat → Nat → List Char → Nat × Nat × List Char
  | v, n, c :: cs =>
    if c.isDigit then takeDigits (10 * v + (c.toNat - 48)) (n + 1) cs
    else (v, n, c :: cs)
  | v, n, [] => (v, n, [])

/-- Consume an optional leading sign; `true` means negative. -/
def parseSign : List Char → Bool × List Char
  | c :: t =>
    if c = Char.ofNat 45 then (true, t)
    else if c = Char.ofNat 43 then (false, t)
    else (false, c :: t)
  | [] => (false, [])

/-- Model of `strconv.ParseFloat` on plain decimal notation (optional
sign, digits, optional fraction, at least one digit, nothing left over),
returning the exact decimal value.  Exponent, hexadecimal and Inf/NaN
spellings of Go's parser fall outside the data this design describes and
are rejected. -/
def ParseFloat (s : String) : Option Decimal :=
  let sc := parseSign s.data
  let ir := takeDigits 0 0 sc.2
  match ir.2.2 with
  | [] =>
    if ir.2.1 = 0 then none
    else some ⟨if sc.1 then -(ir.1 : Int) else (ir.1 : Int), 0⟩
  | c :: t =>
    if c = Char.ofNat 46 then
      let fr := takeDigits 0 0 t
      if fr.2.2 = [] ∧ ¬(ir.2.1 = 0 ∧ fr.2.1 = 0) then
        let mag : Int := (ir.1 : Int) * (10 : Int) ^ fr.2.1 + (fr.1 : Int)
        some ⟨if sc.1 then -mag else mag, fr.2.1⟩
      else none
    else none

/-- Model of `Sprintf "%.2f"`: round the value to a whole number of
hundredths and print with exactly two fractional digits.  Exact whenever
the value has at most two decimal places, which is what the premium data
carries. -/
def fmt2 (q : Decimal) : String :=
  let den : Int := (10 : Int) ^ q.fdigits
  let n : Int := Int.fdiv (2 * (q.mant * 100) + den) (2 * den)
  let a : Nat := n.natAbs
  let frac : Nat := a % 100
  let s : String :=
    toString (a / 100) ++ "." ++ (if frac < 10 then "0" else "") ++ toString frac
  if n < 0 then "-" ++ s else s

/-- `sort.Float64s`: ascending sort by value, modelled by insertion sort
(the result, a sorted permutation, is all the program observes). -/
def sortRates (l : List Decimal) : List Decimal := List.insertionSort Decimal.le l

/-- One line of the output loop (main.go lines 384-395): a bare
`zip ++ ","` when fewer than two rates were collected, else the rate at
index 1 of the ascending sort, formatted `%.2f`. -/
def outLine (zip : String) (rd : RateData) : String :=
  if rd.Rates.length < 2 then zip ++ ","
  else zip ++ "," ++ fmt2 ((sortRates rd.Rates).getD 1 default)

/-- Data loop of `parseSlcsp` (second version, main.go lines 240-257):
collect the `zipcode` column in input order; a record of the wrong width
is a read error. -/
def parseSlcspLoop : List String → List Row → List String × Option PipelineError
  | acc, [] => (acc, none)
  | acc, r :: rs =>
    if r.length = 2 then parseSlcspLoop (acc ++ [fld r 0]) rs
    else (acc, some .SourceReadError)

/-- `parseSlcsp` (second version, main.go lines 222-260): `none` input is
an unopenable file; an empty file fails reading the header. -/
def parseSlcsp (input : Option (List Row)) : List String × Option PipelineError :=
  match input with
  | none => ([], some .SourceReadError)
  | some [] => ([], some .SourceReadError)
  | some (hdr :: rows) =>
    if hdr.length = 2 then parseSlcspLoop [] rows
    else ([], some .SourceReadError)

/-- One data row of `parseZips` (main.go lines 297-301): when the zip is a
known key, overwrite its `RateArea` with this row's identifier. -/
def stepZips (m : AMap) (r : Row) : AMap :=
  if (afind m (fld r 0)).isSome then
    aupd m (fld r 0)
      (fun rd => { rd with RateArea := concatRateArea (fld r 1) (fld r 4) })
  else m

/-- Data loop of `parseZips` (main.go lines 279-302). -/
def parseZipsLoop : AMap → List Row → AMap × Option PipelineError
  | m, [] => (m, none)
  | m, r :: rs =>
    if r.length = 5 then parseZipsLoop (stepZips m r) rs
    else (m, some .SourceReadError)

/-- `parseZips` (main.go lines 262-305). -/
def parseZips (m : AMap) (input : Option (List Row)) : AMap × Option PipelineError :=
  match input with
  | none => (m, some .SourceReadError)
  | some [] => (m, some .SourceReadError)
  | some (hdr :: rows) =>
    if hdr.length = 5 then parseZipsLoop m rows
    else (m, some .SourceReadError)

/-- Aggregation body of `parsePlans` (main.go lines 348-352): every record
whose `RateArea` equals the row's identifier gets the rate appended when
the row's metal level is `"Silver"`. -/
def stepPlans (m : AMap) (r : Row) (rate : Decimal) : AMap :=
  m.map (fun e =>
    if concatRateArea (fld r 1) (fld r 4) = e.2.RateArea ∧ fld r 2 = "Silver" then
      (e.1, { e.2 with Rates := e.2.Rates ++ [rate] })
    else e)

/-- Data loop of `parsePlans` (main.go lines 324-354): the rate field is
parsed before any filtering, and a parse failure aborts the loop. -/
def parsePlansLoop : AMap → List Row → AMap × Option PipelineError
  | m, [] => (m, none)
  | m, r :: rs =>
    if r.length = 5 then
      match ParseFloat (fld r 3) with
      | none => (m, some .RateParseError)
      | some rate => parsePlansLoop (stepPlans m r rate) rs
    else (m, some .SourceReadError)

/-- `parsePlans` (main.go lines 307-357). -/
def parsePlans (m : AMap) (input : Option (List Row)) : AMap × Option PipelineError :=
  match input with
  | none => (m, some .SourceReadError)
  | some [] => (m, some .SourceReadError)
  | some (hdr :: rows) =>
    if hdr.length = 5 then parsePlansLoop m rows
    else (m, some .SourceReadError)

/-- The map built from the target slice (main.go lines 367-370):
`zipData[zip] = new empty record` for each zip in order. -/
def initMap (zips : List String) : AMap :=
  zips.foldl (fun m z => aset m z RateData.emptyRec) []

/-- The ordered target list the second `main` keeps. -/
def targetsOf (s : Option (List Row)) : List String := (parseSlcsp s).1

/-- The map state after all three passes of the second `main`. -/
def finalMap (s z p : Option (List Row)) : AMap :=
  (parsePlans (parseZips (initMap (targetsOf s)) z).1 p).1

/-- The second `main` (main.go lines 359-396): run the three passes, abort
on the first error, else emit the header and one line per target-slice
entry in order. -/
def mainOutput (s z p : Option (List Row)) : Except PipelineError (List String) :=
  match (parseSlcsp s).2 with
  | some e => Except.error e
  | none =>
    match (parseZips (initMap (targetsOf s)) z).2 with
    | some e => Except.error e
    | none =>
      match (parsePlans (parseZips (initMap (targetsOf s)) z).1 p).2 with
      | some e => Except.error e
      | none =>
        Except.ok ("zipcode,rate" ::
          (targetsOf s).map (fun zip =>
            outLine zip ((afind (finalMap s z p) zip).getD RateData.emptyRec)))

/-- Data loop of the first version's `parseSlcsp` (main.go lines 45-61):
`zips[record[0]] = new empty record` directly. -/
def parseSlcspV1Loop : AMap → List Row → AMap × Option PipelineError
  | m, [] => (m, none)
  | m, r :: rs =>
    if r.length = 2 then parseSlcspV1Loop (aset m (fld r 0) RateData.emptyRec) rs
    else (m, some .SourceReadError)

/-- The first version's `parseSlcsp` (main.go lines 27-64). -/
def parseSlcspV1 (input : Option (List Row)) : AMap × Option PipelineError :=
  match input with
  | none => ([], some .SourceReadError)
  | some [] => ([], some .SourceReadError)
  | some (hdr :: rows) =>
    if hdr.length = 2 then parseSlcspV1Loop [] rows
    else ([], some .SourceReadError)

/-- The map state after all three passes of the first `main`. -/
def finalMapV1 (s z p : Option (List Row)) : AMap :=
  (parsePlans (parseZips (parseSlcspV1 s).1 z).1 p).1

/-- The first `main` (main.go lines 163-194): identical passes, but the
output ranges over the map.  Go's map iteration order is arbitrary; the
insertion-order enumeration below is one admissible order, and only
order-insensitive statements are proved about this output. -/
def mainOutputV1 (s z p : Option (List Row)) : Except PipelineError (List String) :=
  match (parseSlcspV1 s).2 with
  | some e => Except.error e
  | none =>
    match (parseZips (parseSlcspV1 s).1 z).2 with
    | some e => Except.error e
    | none =>
      match (parsePlans (parseZips (parseSlcspV1 s).1 z).1 p).2 with
      | some e => Except.error e
      | none =>
        Except.ok ("zipcode,rate" ::
          (finalMapV1 s z p).map (fun e => outLine e.1 e.2))

/-! ### Concrete input fixtures

Small CSV sources, already split into records, used to evaluate the
pipeline at concrete inputs. -/

/-- A target list holding the single zip `12345`. -/
def srcSlcspA : Option (List Row) := some [["zipcode", "rate"], ["12345", ""]]

/-- A rating-area source giving zip `12345` two conflicting identifiers,
`AL 9` first and `AL 7` last. -/
def srcZipsA : Option (List Row) :=
  some [["zipcode", "state", "county_code", "name", "rate_area"],
    ["12345", "AL", "001", "Autauga", "9"],
    ["12345", "AL", "001", "Autauga", "7"]]

/-- A plan catalog with two Silver plans in rating area `AL 7`. -/
def srcPlansA : Option (List Row) :=
  some [["plan_id", "state", "metal_level", "rate", "rate_area"],
    ["74449NR9870320", "AL", "Silver", "100", "7"],
    ["74449NR9870321", "AL", "Silver", "200", "7"]]

/-- A target list with a duplicated zip: `11`, `11`, `22`. -/
def srcSlcspB : Option (List Row) :=
  some [["zipcode", "rate"], ["11", ""], ["11", ""], ["22", ""]]

/-- A rating-area source putting both target zips in `KS 2`. -/
def srcZipsB : Option (List Row) :=
  some [["zipcode", "state", "county_code", "name", "rate_area"],
    ["11", "KS", "1", "a", "2"], ["22", "KS", "1", "a", "2"]]

/-- A plan catalog for `KS 2`: Silver rates 198.25, 207.60, 207.60 and an
ignored Bronze row. -/
def srcPlansB : Option (List Row) :=
  some [["plan_id", "state", "metal_level", "rate", "rate_area"],
    ["a", "KS", "Silver", "198.25", "2"], ["b", "KS", "Silver", "207.60", "2"],
    ["c", "KS", "Silver", "207.60", "2"], ["d", "KS", "Bronze", "10.00", "2"]]

/-- A plan catalog whose only row has a non-numeric rate on a non-Silver
row. -/
def srcPlansBad : Option (List Row) :=
  some [["plan_id", "state", "metal_level", "rate", "rate_area"],
    ["x", "TX", "Gold", "abc", "3"]]

/-- A rating-area source giving zip `1111` the identifier `A 1` and then
the conflicting identifier `B 2`. -/
def srcZipsC : Option (List Row) :=
  some [["zipcode", "state", "county_code", "name", "rate_area"],
    ["1111", "A", "c", "n", "1"], ["1111", "B", "c", "n", "2"]]

/-- A plan catalog with a single Silver plan in rating area `B 2`. -/
def srcPlansC : Option (List Row) :=
  some [["plan_id", "state", "metal_level", "rate", "rate_area"],
    ["pl", "B", "Silver", "50", "2"]]

/-- The record the output loop reads for a zip: `zipData[zip]` after the
three passes. -/
def zipRateRecord (s z p : Option (List Row)) (zip : String) : RateData :=
  (afind (finalMap s z p) zip).getD RateData.emptyRec

/-! ### Helper lemmas about the map model -/

/-- Updating in place never changes the key list. -/
theorem akeys_aupd (m : AMap) (k : String) (f : RateData → RateData) :
    akeys (aupd m k f) = akeys m := by
  induction m with
  | nil => rfl
  | cons e m ih =>
    obtain ⟨k0, v0⟩ := e
    by_cases h : k0 = k
    · simp [aupd, akeys, h]
    · simp only [aupd, akeys, List.map_cons, if_neg h]
      simp only [akeys] at ih
      rw [ih]

/-- A zips row never changes the key list. -/
theorem akeys_stepZips (m : AMap) (r : Row) : akeys (stepZips m r) = akeys m := by
  unfold stepZips
  by_cases h : (afind m (fld r 0)).isSome <;> simp [h, akeys_aupd]

/-- A plans row never changes the key list. -/
theorem akeys_stepPlans (m : AMap) (r : Row) (q : Decimal) :
    akeys (stepPlans m r q) = akeys m := by
  unfold stepPlans akeys
  rw [List.map_map]
  congr 1
  funext e
  by_cases h : concatRateArea (fld r 1) (fld r 4) = e.2.RateArea ∧ fld r 2 = "Silver" <;>
    simp [h]

/-- The zips pass never changes the key list. -/
theorem akeys_parseZipsLoop (rows : List Row) (m : AMap) :
    akeys (parseZipsLoop m rows).1 = akeys m := by
  induction rows generalizing m with
  | nil => rfl
  | cons r rs ih =>
    by_cases h : r.length = 5 <;> simp [parseZipsLoop, h]
    rw [ih, akeys_stepZips]

/-- The plans pass never changes the key list. -/
theorem akeys_parsePlansLoop (rows : List Row) (m : AMap) :
    akeys (parsePlansLoop m rows).1 = akeys m := by
  induction rows generalizing m with
  | nil => rfl
  | cons r rs ih =>
    by_cases h : r.length = 5 <;> simp [parsePlansLoop, h]
    cases hp : ParseFloat (fld r 3) with
    | none => rfl
    | some q => rw [ih, akeys_stepPlans]

theorem akeys_parseZips (m : AMap) (input : Option (List Row)) :
    akeys (parseZips m input).1 = akeys m := by
  unfold parseZips
  match input with
  | none => rfl
  | some [] => rfl
  | some (hdr :: rows) =>
    by_cases h : hdr.length = 5 <;> simp [h, akeys_parseZipsLoop]

theorem akeys_parsePlans (m : AMap) (input : Option (List Row)) :
    akeys (parsePlans m input).1 = akeys m := by
  unfold parsePlans
  match input with
  | none => rfl
  | some [] => rfl
  | some (hdr :: rows) =>
    by_cases h : hdr.length = 5 <;> simp [h, akeys_parsePlansLoop]

/-- The key list of a cons, by computation. -/
theorem akeys_cons (k0 : String) (v0 : RateData) (m : AMap) :
    akeys ((k0, v0) :: m) = k0 :: akeys m := rfl

/-- Key membership after a Go map assignment. -/
theorem mem_akeys_aset (m : AMap) (k : String) (v : RateData) (x : String) :
    x ∈ akeys (aset m k v) ↔ x ∈ akeys m ∨ x = k := by
  induction m with
  | nil =>
    show x ∈ akeys [(k, v)] ↔ x ∈ akeys ([] : AMap) ∨ x = k
    rw [akeys_cons]
    simp [akeys]
  | cons e m ih =>
    obtain ⟨k0, v0⟩ := e
    by_cases h : k0 = k
    · subst h
      have hs : aset ((k0, v0) :: m) k0 v = (k0, v) :: m := by simp [aset]
      rw [hs, akeys_cons, akeys_cons]
      simp only [List.mem_cons]
      tauto
    · have hs : aset ((k0, v0) :: m) k v = (k0, v0) :: aset m k v := by simp [aset, h]
      rw [hs, akeys_cons, akeys_cons]
      simp only [List.mem_cons, ih]
      tauto

/-- Assignment to a present key keeps the key list. -/
theorem akeys_aset_of_mem {m : AMap} {k : String} (v : RateData) (h : k ∈ akeys m) :
    akeys (aset m k v) = akeys m := by
  induction m with
  | nil => cases h
  | cons e m ih =>
    obtain ⟨k0, v0⟩ := e
    rw [akeys_cons] at h
    by_cases hk : k0 = k
    · subst hk
      have hs : aset ((k0, v0) :: m) k0 v = (k0, v) :: m := by simp [aset]
      rw [hs, akeys_cons, akeys_cons]
    · have h2 : k ∈ akeys m := by
        rcases List.mem_cons.mp h with h1 | h1
        · exact absurd h1.symm hk
        · exact h1
      have hs : aset ((k0, v0) :: m) k v = (k0, v0) :: aset m k v := by simp [aset, hk]
      rw [hs, akeys_cons, akeys_cons, ih h2]

/-- Assignment to an absent key appends it. -/
theorem akeys_aset_of_not_mem {m : AMap} {k : String} (v : RateData) (h : k ∉ akeys m) :
    akeys (aset m k v) = akeys m ++ [k] := by
  induction m with
  | nil => rfl
  | cons e m ih =>
    obtain ⟨k0, v0⟩ := e
    rw [akeys_cons] at h
    simp only [List.mem_cons, not_or] at h
    have hk : ¬k0 = k := fun e2 => h.1 e2.symm
    have hs : aset ((k0, v0) :: m) k v = (k0, v0) :: aset m k v := by simp [aset, hk]
    rw [hs, akeys_cons, akeys_cons, ih h.2, List.cons_append]

/-- Go map assignment preserves key uniqueness. -/
theorem nodup_akeys_aset {m : AMap} (k : String) (v : RateData)
    (h : (akeys m).Nodup) : (akeys (aset m k v)).Nodup := by
  by_cases hk : k ∈ akeys m
  · rw [akeys_aset_of_mem v hk]; exact h
  · rw [akeys_aset_of_not_mem v hk]
    simpa [List.nodup_append] using ⟨h, hk⟩

/-- With unique keys, the lookup of an entry's key returns its value. -/
theorem afind_of_mem {m : AMap} (hnd : (akeys m).Nodup) {e : String × RateData}
    (he : e ∈ m) : afind m e.1 = some e.2 := by
  induction m with
  | nil => cases he
  | cons e0 m ih =>
    obtain ⟨k0, v0⟩ := e0
    rw [akeys_cons] at hnd
    rcases List.mem_cons.mp he with rfl | he2
    · simp [afind]
    · have hne : k0 ≠ e.1 := by
        intro hkk
        exact (List.nodup_cons.mp hnd).1 (hkk ▸ List.mem_map_of_mem Prod.fst he2)
      simp only [afind, if_neg hne]
      exact ih (List.nodup_cons.mp hnd).2 he2

/-- Every key has an entry that the lookup returns. -/
theorem afind_of_mem_akeys {m : AMap} {k : String} (hk : k ∈ akeys m) :
    ∃ v, (k, v) ∈ m ∧ afind m k = some v := by
  induction m with
  | nil => cases hk
  | cons e0 m ih =>
    obtain ⟨k0, v0⟩ := e0
    by_cases h : k0 = k
    · subst h
      exact ⟨v0, List.mem_cons_self _ _, by simp [afind]⟩
    · rw [akeys_cons] at hk
      rcases List.mem_cons.mp hk with h1 | h1
      · exact absurd h1.symm h
      · obtain ⟨v, hv1, hv2⟩ := ih h1
        exact ⟨v, List.mem_cons_of_mem _ hv1, by simp only [afind, if_neg h]; exact hv2⟩

/-- Key membership of the fold that builds the map from the target slice. -/
theorem mem_akeys_setFold (ts : List String) (m0 : AMap) (x : String) :
    x ∈ akeys (ts.foldl (fun m z => aset m z RateData.emptyRec) m0) ↔
      x ∈ akeys m0 ∨ x ∈ ts := by
  induction ts generalizing m0 with
  | nil => simp
  | cons t ts ih =>
    simp only [List.foldl_cons, ih, mem_akeys_aset, List.mem_cons]
    tauto

/-- The fold that builds the map keeps keys unique. -/
theorem nodup_akeys_setFold (ts : List String) (m0 : AMap)
    (h : (akeys m0).Nodup) :
    (akeys (ts.foldl (fun m z => aset m z RateData.emptyRec) m0)).Nodup := by
  induction ts generalizing m0 with
  | nil => exact h
  | cons t ts ih => exact ih _ (nodup_akeys_aset t RateData.emptyRec h)

/-- A zip is a key of the initial map exactly when it is a target. -/
theorem mem_akeys_initMap (ts : List String) (x : String) :
    x ∈ akeys (initMap ts) ↔ x ∈ ts := by
  unfold initMap
  rw [mem_akeys_setFold]
  simp [akeys]

/-- The initial map has unique keys. -/
theorem nodup_akeys_initMap (ts : List String) : (akeys (initMap ts)).Nodup :=
  nodup_akeys_setFold ts [] List.nodup_nil

/-- The final map has the same key list as the initial map. -/
theorem akeys_finalMap (s z p : Option (List Row)) :
    akeys (finalMap s z p) = akeys (initMap (targetsOf s)) := by
  unfold finalMap
  rw [akeys_parsePlans, akeys_parseZips]

/-! ### The two versions build the same map -/

/-- The first version's slcsp loop is the second version's loop followed
by the map construction. -/
theorem parseSlcspV1Loop_eq (rows : List Row) (acc : List String) :
    parseSlcspV1Loop (initMap acc) rows =
      (initMap (parseSlcspLoop acc rows).1, (parseSlcspLoop acc rows).2) := by
  induction rows generalizing acc with
  | nil => rfl
  | cons r rs ih =>
    by_cases h : r.length = 2
    · simp only [parseSlcspV1Loop, parseSlcspLoop, if_pos h]
      have hstep : aset (initMap acc) (fld r 0) RateData.emptyRec =
          initMap (acc ++ [fld r 0]) := by
        unfold initMap
        rw [List.foldl_append]
        rfl
      rw [hstep]
      exact ih (acc ++ [fld r 0])
    · simp only [parseSlcspV1Loop, parseSlcspLoop, if_neg h]

/-- The first version's `parseSlcsp` equals the second version's target
slice turned into the keyed map, with the same error status. -/
theorem parseSlcspV1_eq (s : Option (List Row)) :
    parseSlcspV1 s = (initMap (targetsOf s), (parseSlcsp s).2) := by
  unfold parseSlcspV1 targetsOf parseSlcsp
  match s with
  | none => rfl
  | some [] => rfl
  | some (hdr :: rows) =>
    by_cases h : hdr.length = 2
    · simp only [if_pos h]
      have h0 : (initMap [] : AMap) = [] := rfl
      rw [← h0, parseSlcspV1Loop_eq]
    · simp only [if_neg h]
      rfl

/-- Both versions compute the same final map. -/
theorem finalMapV1_eq (s z p : Option (List Row)) :
    finalMapV1 s z p = finalMap s z p := by
  unfold finalMapV1 finalMap
  rw [parseSlcspV1_eq]

/-! ### Loop characterizations -/

/-- The zips pass succeeds on any well-formed row list, matches or not. -/
theorem parseZipsLoop_ok (rows : List Row) (m : AMap)
    (h5 : ∀ r ∈ rows, r.length = 5) : (parseZipsLoop m rows).2 = none := by
  induction rows generalizing m with
  | nil => rfl
  | cons r rs ih =>
    have h := h5 r (List.mem_cons_self _ _)
    simp only [parseZipsLoop, if_pos h]
    exact ih _ (fun q hq => h5 q (List.mem_cons_of_mem _ hq))

/-- On well-formed rows, any unparsable rate makes the plans pass fail
with the rate-parse error. -/
theorem parsePlansLoop_err (rows : List Row) (m : AMap)
    (h5 : ∀ r ∈ rows, r.length = 5)
    (hbad : ∃ r ∈ rows, ParseFloat (fld r 3) = none) :
    (parsePlansLoop m rows).2 = some PipelineError.RateParseError := by
  induction rows generalizing m with
  | nil => obtain ⟨r, hr, _⟩ := hbad; cases hr
  | cons r rs ih =>
    have h := h5 r (List.mem_cons_self _ _)
    simp only [parsePlansLoop, if_pos h]
    cases hp : ParseFloat (fld r 3) with
    | none => rfl
    | some q =>
      obtain ⟨r2, hr2, hbad2⟩ := hbad
      rcases List.mem_cons.mp hr2 with rfl | hr3
      · rw [hp] at hbad2; cases hbad2
      · exact ih _ (fun q2 hq2 => h5 q2 (List.mem_cons_of_mem _ hq2)) ⟨r2, hr3, hbad2⟩

/-- A row of the wrong width makes the slcsp loop fail. -/
theorem parseSlcspLoop_err (rows : List Row) (acc : List String)
    (hbad : ∃ r ∈ rows, r.length ≠ 2) :
    ∃ e, (parseSlcspLoop acc rows).2 = some e := by
  induction rows generalizing acc with
  | nil => obtain ⟨r, hr, _⟩ := hbad; cases hr
  | cons r rs ih =>
    by_cases h : r.length = 2
    · simp only [parseSlcspLoop, if_pos h]
      obtain ⟨r2, hr2, hbad2⟩ := hbad
      rcases List.mem_cons.mp hr2 with rfl | hr3
      · exact absurd h hbad2
      · exact ih _ ⟨r2, hr3, hbad2⟩
    · exact ⟨.SourceReadError, by simp only [parseSlcspLoop, if_neg h]⟩

/-- A row of the wrong width makes the zips loop fail. -/
theorem parseZipsLoop_err (rows : List Row) (m : AMap)
    (hbad : ∃ r ∈ rows, r.length ≠ 5) :
    ∃ e, (parseZipsLoop m rows).2 = some e := by
  induction rows generalizing m with
  | nil => obtain ⟨r, hr, _⟩ := hbad; cases hr
  | cons r rs ih =>
    by_cases h : r.length = 5
    · simp only [parseZipsLoop, if_pos h]
      obtain ⟨r2, hr2, hbad2⟩ := hbad
      rcases List.mem_cons.mp hr2 with rfl | hr3
      · exact absurd h hbad2
      · exact ih _ ⟨r2, hr3, hbad2⟩
    · exact ⟨.SourceReadError, by simp only [parseZipsLoop, if_neg h]⟩

/-- A row of the wrong width makes the plans loop fail. -/
theorem parsePlansLoop_err_len (rows : List Row) (m : AMap)
    (hbad : ∃ r ∈ rows, r.length ≠ 5) :
    ∃ e, (parsePlansLoop m rows).2 = some e := by
  induction rows generalizing m with
  | nil => obtain ⟨r, hr, _⟩ := hbad; cases hr
  | cons r rs ih =>
    by_cases h : r.length = 5
    · simp only [parsePlansLoop, if_pos h]
      obtain ⟨r2, hr2, hbad2⟩ := hbad
      rcases List.mem_cons.mp hr2 with rfl | hr3
      · exact absurd h hbad2
      · cases hp : ParseFloat (fld r 3) with
        | none => exact ⟨.RateParseError, rfl⟩
        | some q => exact ih _ ⟨r2, hr3, hbad2⟩
    · exact ⟨.SourceReadError, by simp only [parsePlansLoop, if_neg h]⟩

/-- A successful slcsp loop returns the accumulated zip column. -/
theorem parseSlcspLoop_ok_val (rows : List Row) (acc : List String)
    (h : (parseSlcspLoop acc rows).2 = none) :
    (parseSlcspLoop acc rows).1 = acc ++ rows.map (fun r => fld r 0) := by
  induction rows generalizing acc with
  | nil => simp [parseSlcspLoop]
  | cons r rs ih =>
    by_cases h2 : r.length = 2
    · simp only [parseSlcspLoop, if_pos h2] at h ⊢
      rw [ih _ h, List.map_cons]
      simp
    · simp only [parseSlcspLoop, if_neg h2] at h
      cases h

/-! ### Inverting a successful run of the second main -/

/-- A successful run means the three passes succeeded and the output is
the header followed by one line per target-slice entry, in order. -/
theorem mainOutput_ok {s z p : Option (List Row)} {out : List String}
    (h : mainOutput s z p = Except.ok out) :
    (parseSlcsp s).2 = none ∧
    (parseZips (initMap (targetsOf s)) z).2 = none ∧
    (parsePlans (parseZips (initMap (targetsOf s)) z).1 p).2 = none ∧
    out = "zipcode,rate" ::
      (targetsOf s).map (fun zip =>
        outLine zip ((afind (finalMap s z p) zip).getD RateData.emptyRec)) := by
  unfold mainOutput at h
  cases h1 : (parseSlcsp s).2 with
  | some e => rw [h1] at h; cases h
  | none =>
    rw [h1] at h
    cases h2 : (parseZips (initMap (targetsOf s)) z).2 with
    | some e => rw [h2] at h; cases h
    | none =>
      rw [h2] at h
      cases h3 : (parsePlans (parseZips (initMap (targetsOf s)) z).1 p).2 with
      | some e => rw [h3] at h; cases h
      | none =>
        rw [h3] at h
        exact ⟨rfl, rfl, rfl, (Except.ok.injEq _ _).mp h.symm⟩

/-! ### Splitting a concatenation at a marker that the left part avoids -/

/-- If two `l ++ a :: r` decompositions agree and neither left part
contains `a`, the parts coincide. -/
theorem append_cons_cancel_of_not_mem {a : Char} {l1 l2 r1 r2 : List Char}
    (h : l1 ++ a :: r1 = l2 ++ a :: r2) (h1 : a ∉ l1) (h2 : a ∉ l2) :
    l1 = l2 ∧ r1 = r2 := by
  induction l1 generalizing l2 with
  | nil =>
    cases l2 with
    | nil => simpa using h
    | cons c t =>
      simp only [List.nil_append, List.cons_append, List.cons.injEq] at h
      exact absurd (h.1 ▸ List.mem_cons_self c t) h2
  | cons c t ih =>
    cases l2 with
    | nil =>
      simp only [List.cons_append, List.nil_append, List.cons.injEq] at h
      exact absurd (h.1.symm ▸ List.mem_cons_self c t) h1
    | cons c2 t2 =>
      simp only [List.cons_append, List.cons.injEq] at h
      have ht := ih h.2
        (fun hm => h1 (List.mem_cons_of_mem _ hm))
        (fun hm => h2 (List.mem_cons_of_mem _ hm))
      exact ⟨by rw [h.1, ht.1], ht.2⟩

/-- The underlying characters of a rating-area identifier. -/
theorem concatRateArea_data (state code : String) :
    (concatRateArea state code).data = state.data ++ spaceChar :: code.data := by
  unfold concatRateArea
  rw [String.data_append, String.data_append]
  have hsp : (" " : String).data = [spaceChar] := by decide
  rw [hsp, List.append_assoc, List.singleton_append]

/-! ### The matched lines of the two output loops -/

/-- With unique keys, enumerating the map and looking each target up give
the same set of output lines. -/
theorem toFinset_outLines (M : AMap) (ts : List String)
    (hnd : (akeys M).Nodup) (hmem : ∀ x, x ∈ akeys M ↔ x ∈ ts) :
    (M.map (fun e => outLine e.1 e.2)).toFinset =
      (ts.map (fun zip => outLine zip ((afind M zip).getD RateData.emptyRec))).toFinset := by
  ext l
  simp only [List.mem_toFinset, List.mem_map]
  constructor
  · rintro ⟨e, he, rfl⟩
    refine ⟨e.1, (hmem e.1).mp (List.mem_map_of_mem Prod.fst he), ?_⟩
    rw [afind_of_mem hnd he]
    rfl
  · rintro ⟨zip, hz, rfl⟩
    obtain ⟨v, hv1, hv2⟩ := afind_of_mem_akeys ((hmem zip).mpr hz)
    exact ⟨(zip, v), hv1, by rw [hv2]; rfl⟩

/-- The first main, written over the second main's stage expressions. -/
theorem mainOutputV1_eq (s z p : Option (List Row)) :
    mainOutputV1 s z p =
      match (parseSlcsp s).2 with
      | some e => Except.error e
      | none =>
        match (parseZips (initMap (targetsOf s)) z).2 with
        | some e => Except.error e
        | none =>
          match (parsePlans (parseZips (initMap (targetsOf s)) z).1 p).2 with
          | some e => Except.error e
          | none =>
            Except.ok ("zipcode,rate" ::
              (finalMap s z p).map (fun e => outLine e.1 e.2)) := by
  unfold mainOutputV1 finalMapV1
  rw [parseSlcspV1_eq]
  rfl

/-- The whole run fails as soon as any stage fails. -/
theorem mainOutput_error_of_stage (s z p : Option (List Row))
    (h : (∃ e1, (parseSlcsp s).2 = some e1) ∨
      (∃ e2, (parseZips (initMap (targetsOf s)) z).2 = some e2) ∨
      (∃ e3, (parsePlans (parseZips (initMap (targetsOf s)) z).1 p).2 = some e3)) :
    ∃ e, mainOutput s z p = Except.error e := by
  unfold mainOutput
  cases h1 : (parseSlcsp s).2 with
  | some e => exact ⟨e, rfl⟩
  | none =>
    cases h2 : (parseZips (initMap (targetsOf s)) z).2 with
    | some e => exact ⟨e, rfl⟩
    | none =>
      cases h3 : (parsePlans (parseZips (initMap (targetsOf s)) z).1 p).2 with
      | some e => exact ⟨e, rfl⟩
      | none =>
        rcases h with ⟨e1, he⟩ | ⟨e2, he⟩ | ⟨e3, he⟩
        · rw [he] at h1; cases h1
        · rw [he] at h2; cases h2
        · rw [he] at h3; cases h3

/-! ### The claims -/

/-- Claim C1.  The claim states that a zip whose rating-area rows carry
two or more distinct `(state, rateAreaCode)` identifiers is emitted with
an empty rate field regardless of plan data.  The code does no such
thing: it has no ambiguity flag and overwrites `RateArea` on every
matching row, so with the conflicting identifiers `AL 9` and `AL 7` for
zip `12345` and two Silver plans in `AL 7`, the run emits the non-empty
rate `200.00` for `12345`. -/
theorem claim1_ambiguous_zip_not_blanked :
    concatRateArea "AL" "9" ≠ concatRateArea "AL" "7" ∧
    mainOutput srcSlcspA srcZipsA srcPlansA =
      Except.ok ["zipcode,rate", "12345,200.00"] := by decide

/-- Claim C3.  The claim states that a plan row's rate is appended exactly
when the identifier matches, the zip's `ambiguous` flag is false, and the
metal level is Silver.  The code has no ambiguous flag: zip `1111` sees
the two distinct identifiers `A 1` and `B 2` in its rating-area rows, yet
the aggregation still appends the Silver rate of a plan in `B 2` (the
last recorded area). -/
theorem claim3_append_ignores_ambiguity :
    concatRateArea "A" "1" ≠ concatRateArea "B" "2" ∧
    afind (parseZips (initMap ["1111"]) srcZipsC).1 "1111" =
      some ⟨concatRateArea "B" "2", []⟩ ∧
    afind (parsePlans (parseZips (initMap ["1111"]) srcZipsC).1 srcPlansC).1 "1111" =
      some ⟨concatRateArea "B" "2", [⟨50, 0⟩]⟩ := by decide

/-- Claim C5.  The claim states the invariant that `rateArea` is assigned
at most once before any conflicting value is seen and that an ambiguous
record never receives rates.  In the code the field is freely
overwritten: processing the rows for zip `1111` assigns `A 1` and then
reassigns the different identifier `B 2`, and a later matching Silver
plan row still appends its rate. -/
theorem claim5_rateArea_overwritten :
    afind (stepZips (initMap ["1111"]) ["1111", "A", "c", "n", "1"]) "1111" =
      some ⟨concatRateArea "A" "1", []⟩ ∧
    afind (stepZips (stepZips (initMap ["1111"]) ["1111", "A", "c", "n", "1"])
        ["1111", "B", "c", "n", "2"]) "1111" =
      some ⟨concatRateArea "B" "2", []⟩ ∧
    concatRateArea "A" "1" ≠ concatRateArea "B" "2" ∧
    afind (stepPlans (stepZips (stepZips (initMap ["1111"]) ["1111", "A", "c", "n", "1"])
        ["1111", "B", "c", "n", "2"]) ["pl", "B", "Silver", "50", "2"] ⟨50, 0⟩) "1111" =
      some ⟨concatRateArea "B" "2", [⟨50, 0⟩]⟩ := by decide

/-- Claim C7, counterexample.  `concatRateArea` is not injective on all
inputs: a state containing a space collides with a shifted split. -/
theorem claim7_counterexample :
    concatRateArea "A B" "C" = concatRateArea "A" "B C" ∧
    (("A B", "C") : String × String) ≠ ("A", "B C") := by decide

/-- Claim C7, amended.  Both passes compute the join key with the one
function `concatRateArea`; that function is injective provided the state
field contains no space character (on real two-letter state codes this
always holds; without the restriction the previous counterexample
applies). -/
theorem claim7_injective_without_space (s1 c1 s2 c2 : String)
    (h : concatRateArea s1 c1 = concatRateArea s2 c2)
    (h1 : spaceChar ∉ s1.data) (h2 : spaceChar ∉ s2.data) :
    s1 = s2 ∧ c1 = c2 := by
  have hd := congrArg String.data h
  rw [concatRateArea_data, concatRateArea_data] at hd
  obtain ⟨hs, hc⟩ := append_cons_cancel_of_not_mem hd h1 h2
  exact ⟨String.ext hs, String.ext hc⟩

/-- Witness for claim C7's amended theorem at the concrete pair
`("AL", "9")`. -/
theorem claim7_injective_without_space_witness :
    ("AL" : String) = "AL" ∧ ("9" : String) = "9" :=
  claim7_injective_without_space "AL" "9" "AL" "9" rfl (by decide) (by decide)

/-- Claim C8.  A rating-area row whose zip is not a key of the map leaves
the map unchanged, and the zips pass succeeds on any well-formed source
even when no row matches any target. -/
theorem claim8_untargeted_rows_ignored (m : AMap) (r : Row) (hdr : Row)
    (rows : List Row) (hfind : afind m (fld r 0) = none) (hhdr : hdr.length = 5)
    (h5 : ∀ q ∈ rows, q.length = 5) :
    stepZips m r = m ∧ (parseZips m (some (hdr :: rows))).2 = none := by
  constructor
  · simp [stepZips, hfind]
  · show ((if hdr.length = 5 then parseZipsLoop m rows
      else (m, some PipelineError.SourceReadError)) : AMap × Option PipelineError).2 = none
    rw [if_pos hhdr]
    exact parseZipsLoop_ok rows m h5

/-- Witness for claim C8: a one-key map, a row for a different zip, and a
zips source with no matching rows. -/
theorem claim8_untargeted_rows_ignored_witness :
    stepZips [("22", RateData.emptyRec)] ["33", "A", "c", "n", "1"] =
      [("22", RateData.emptyRec)] ∧
    (parseZips [("22", RateData.emptyRec)]
      (some [["zipcode", "state", "county_code", "name", "rate_area"]])).2 = none :=
  claim8_untargeted_rows_ignored _ _ _ _ (by decide) (by decide) (by decide)

/-- Claim C9.  The plans loop parses the rate field before the tier and
rating-area filters: a row with an unparsable rate aborts the pass with
the rate-parse error even when its metal level is not Silver or its
identifier matches no record. -/
theorem claim9_rate_parsed_before_filters (m : AMap) (r : Row) (rest : List Row)
    (h5 : r.length = 5) (hbad : ParseFloat (fld r 3) = none)
    (_hfil : fld r 2 ≠ "Silver" ∨
      ∀ e ∈ m, concatRateArea (fld r 1) (fld r 4) ≠ e.2.RateArea) :
    parsePlansLoop m (r :: rest) = (m, some PipelineError.RateParseError) := by
  show (if r.length = 5 then
      (match ParseFloat (fld r 3) with
        | none => (m, some PipelineError.RateParseError)
        | some rate => parsePlansLoop (stepPlans m r rate) rest)
      else (m, some PipelineError.SourceReadError)) =
    (m, some PipelineError.RateParseError)
  rw [if_pos h5, hbad]

/-- Witness for claim C9: a Gold row with rate `abc` aborts at once. -/
theorem claim9_rate_parsed_before_filters_witness :
    parsePlansLoop [] [["x", "TX", "Gold", "abc", "3"]] =
      ([], some PipelineError.RateParseError) :=
  claim9_rate_parsed_before_filters [] ["x", "TX", "Gold", "abc", "3"] []
    (by decide) (by decide) (Or.inl (by decide))

/-- Indexing into a mapped list of strings with the string default. -/
theorem getD_map_str (l : List String) (f : String → String) (i : Nat)
    (hi : i < l.length) : (l.map f).getD i "" = f (l.getD i "") := by
  rw [List.getD_eq_getElem?_getD, List.getElem?_map, List.getElem?_eq_getElem hi,
    List.getD_eq_getElem?_getD, List.getElem?_eq_getElem hi]
  rfl

/-- The first main's successful output, over the shared stage results. -/
theorem mainOutputV1_ok {s z p : Option (List Row)} {out : List String}
    (h : mainOutputV1 s z p = Except.ok out) :
    out = "zipcode,rate" :: (finalMap s z p).map (fun e => outLine e.1 e.2) := by
  rw [mainOutputV1_eq] at h
  cases h1 : (parseSlcsp s).2 with
  | some e => rw [h1] at h; cases h
  | none =>
    rw [h1] at h
    cases h2 : (parseZips (initMap (targetsOf s)) z).2 with
    | some e => rw [h2] at h; cases h
    | none =>
      rw [h2] at h
      cases h3 : (parsePlans (parseZips (initMap (targetsOf s)) z).1 p).2 with
      | some e => rw [h3] at h; cases h
      | none => rw [h3] at h; exact ((Except.ok.injEq _ _).mp h).symm

/-- Claim C2.  For every target zip, after the full pipeline: with fewer
than two collected rates the emitted row is `zip,`; otherwise it is the
zip followed by the entry at index 1 of the ascending-sorted rate list
(a sorted permutation of the collected rates, duplicates retained, so a
tie between the two lowest rates yields the tied value), formatted with
exactly two decimal places by `fmt2`. -/
theorem claim2_second_lowest (s z p : Option (List Row)) (out : List String)
    (h : mainOutput s z p = Except.ok out) (i : Nat)
    (hi : i < (targetsOf s).length) :
    ((zipRateRecord s z p ((targetsOf s).getD i "")).Rates.length < 2 →
      out.getD (i + 1) "" = (targetsOf s).getD i "" ++ ",") ∧
    (2 ≤ (zipRateRecord s z p ((targetsOf s).getD i "")).Rates.length →
      List.Perm (sortRates (zipRateRecord s z p ((targetsOf s).getD i "")).Rates)
        (zipRateRecord s z p ((targetsOf s).getD i "")).Rates ∧
      List.Sorted Decimal.le
        (sortRates (zipRateRecord s z p ((targetsOf s).getD i "")).Rates) ∧
      out.getD (i + 1) "" = (targetsOf s).getD i "" ++ "," ++
        fmt2 ((sortRates (zipRateRecord s z p ((targetsOf s).getD i "")).Rates).getD
          1 default)) := by
  obtain ⟨h1, h2, h3, hout⟩ := mainOutput_ok h
  subst hout
  simp only [zipRateRecord]
  rw [List.getD_cons_succ, getD_map_str _ _ i hi]
  constructor
  · intro hlt
    simp only [outLine]
    rw [if_pos hlt]
  · intro hge
    have hnlt := not_lt.mpr hge
    refine ⟨List.perm_insertionSort _ _, List.sorted_insertionSort _ _, ?_⟩
    simp only [outLine]
    rw [if_neg hnlt]

/-- Witness for claim C2 at the fixture with rates 198.25, 207.60,
207.60: the first data row carries the tied second-lowest value. -/
theorem claim2_second_lowest_witness :
    (["zipcode,rate", "11,207.60", "11,207.60", "22,207.60"] : List String).getD 1 "" =
      (targetsOf srcSlcspB).getD 0 "" ++ "," ++
        fmt2 ((sortRates (zipRateRecord srcSlcspB srcZipsB srcPlansB
          ((targetsOf srcSlcspB).getD 0 "")).Rates).getD 1 default) :=
  ((claim2_second_lowest srcSlcspB srcZipsB srcPlansB
    ["zipcode,rate", "11,207.60", "11,207.60", "22,207.60"] (by decide) 0
    (by decide)).2 (by decide)).2.2

/-- Claim C4.  A successful run emits the header plus exactly one data row
per target-slice entry, in target order, each row labelled by its zip,
with the target slice being the zip column of the input in input order
(duplicates included). -/
theorem claim4_output_order (s z p : Option (List Row)) (out : List String)
    (h : mainOutput s z p = Except.ok out) :
    out.length = (targetsOf s).length + 1 ∧
    (∀ hdr rows, s = some (hdr :: rows) →
      targetsOf s = rows.map (fun r => fld r 0)) ∧
    (∀ i, i < (targetsOf s).length →
      ∃ rest, out.getD (i + 1) "" = (targetsOf s).getD i "" ++ "," ++ rest) := by
  obtain ⟨h1, h2, h3, hout⟩ := mainOutput_ok h
  subst hout
  refine ⟨by simp, ?_, ?_⟩
  · intro hdr rows hs
    subst hs
    have hred : parseSlcsp (some (hdr :: rows)) =
        if hdr.length = 2 then parseSlcspLoop [] rows
        else ([], some PipelineError.SourceReadError) := rfl
    unfold targetsOf
    rw [hred] at h1 ⊢
    by_cases hh : hdr.length = 2
    · rw [if_pos hh] at h1 ⊢
      rw [parseSlcspLoop_ok_val rows [] h1]
      simp
    · rw [if_neg hh] at h1
      cases h1
  · intro i hi
    rw [List.getD_cons_succ, getD_map_str _ _ i hi]
    by_cases hlen : ((afind (finalMap s z p)
        ((targetsOf s).getD i "")).getD RateData.emptyRec).Rates.length < 2
    · refine ⟨"", ?_⟩
      simp only [outLine]
      rw [if_pos hlen, String.append_empty]
    · refine ⟨fmt2 ((sortRates ((afind (finalMap s z p)
        ((targetsOf s).getD i "")).getD RateData.emptyRec).Rates).getD 1 default), ?_⟩
      simp only [outLine]
      rw [if_neg hlen]

/-- Witness for claim C4 on the fixture with a duplicated target zip. -/
theorem claim4_output_order_witness :
    (["zipcode,rate", "11,207.60", "11,207.60", "22,207.60"] : List String).length =
      (targetsOf srcSlcspB).length + 1 :=
  (claim4_output_order srcSlcspB srcZipsB srcPlansB
    ["zipcode,rate", "11,207.60", "11,207.60", "22,207.60"] (by decide)).1

/-- Claim C6.  Any unreadable source, any row of the wrong width on any
of the three sources, and any unparsable rate field abort the whole run:
`mainOutput` returns an error (so no output rows exist), and in the
unparsable-rate case the error is exactly `RateParseError`. -/
theorem claim6_fatal_errors (s z p : Option (List Row)) :
    ((s = none ∨ z = none ∨ p = none) → ∃ e, mainOutput s z p = Except.error e) ∧
    ((∃ hdr rows, s = some (hdr :: rows) ∧ ∃ r ∈ rows, r.length ≠ 2) →
      ∃ e, mainOutput s z p = Except.error e) ∧
    ((∃ hdr rows, z = some (hdr :: rows) ∧ ∃ r ∈ rows, r.length ≠ 5) →
      ∃ e, mainOutput s z p = Except.error e) ∧
    ((∃ hdr rows, p = some (hdr :: rows) ∧ ∃ r ∈ rows, r.length ≠ 5) →
      ∃ e, mainOutput s z p = Except.error e) ∧
    (∀ hdr rows, p = some (hdr :: rows) → hdr.length = 5 →
      (∀ r ∈ rows, r.length = 5) → (∃ r ∈ rows, ParseFloat (fld r 3) = none) →
      (parseSlcsp s).2 = none → (parseZips (initMap (targetsOf s)) z).2 = none →
      mainOutput s z p = Except.error PipelineError.RateParseError) := by
  refine ⟨?_, ?_, ?_, ?_, ?_⟩
  · rintro (rfl | rfl | rfl)
    · exact mainOutput_error_of_stage _ _ _
        (Or.inl ⟨PipelineError.SourceReadError, rfl⟩)
    · apply mainOutput_error_of_stage
      cases h1 : (parseSlcsp s).2 with
      | some e => exact Or.inl ⟨e, rfl⟩
      | none => exact Or.inr (Or.inl ⟨PipelineError.SourceReadError, rfl⟩)
    · apply mainOutput_error_of_stage
      cases h1 : (parseSlcsp s).2 with
      | some e => exact Or.inl ⟨e, rfl⟩
      | none =>
        cases h2 : (parseZips (initMap (targetsOf s)) z).2 with
        | some e => exact Or.inr (Or.inl ⟨e, rfl⟩)
        | none => exact Or.inr (Or.inr ⟨PipelineError.SourceReadError, rfl⟩)
  · rintro ⟨hdr, rows, rfl, hbad⟩
    apply mainOutput_error_of_stage
    left
    have hred : parseSlcsp (some (hdr :: rows)) =
        if hdr.length = 2 then parseSlcspLoop [] rows
        else ([], some PipelineError.SourceReadError) := rfl
    by_cases hh : hdr.length = 2
    · obtain ⟨e, he⟩ := parseSlcspLoop_err rows [] hbad
      exact ⟨e, by rw [hred, if_pos hh]; exact he⟩
    · exact ⟨PipelineError.SourceReadError, by rw [hred, if_neg hh]⟩
  · rintro ⟨hdr, rows, rfl, hbad⟩
    apply mainOutput_error_of_stage
    cases h1 : (parseSlcsp s).2 with
    | some e => exact Or.inl ⟨e, rfl⟩
    | none =>
      refine Or.inr (Or.inl ?_)
      have hred : parseZips (initMap (targetsOf s)) (some (hdr :: rows)) =
          if hdr.length = 5 then parseZipsLoop (initMap (targetsOf s)) rows
          else (initMap (targetsOf s), some PipelineError.SourceReadError) := rfl
      by_cases hh : hdr.length = 5
      · obtain ⟨e, he⟩ := parseZipsLoop_err rows (initMap (targetsOf s)) hbad
        exact ⟨e, by rw [hred, if_pos hh]; exact he⟩
      · exact ⟨PipelineError.SourceReadError, by rw [hred, if_neg hh]⟩
  · rintro ⟨hdr, rows, rfl, hbad⟩
    apply mainOutput_error_of_stage
    cases h1 : (parseSlcsp s).2 with
    | some e => exact Or.inl ⟨e, rfl⟩
    | none =>
      cases h2 : (parseZips (initMap (targetsOf s)) z).2 with
      | some e => exact Or.inr (Or.inl ⟨e, rfl⟩)
      | none =>
        refine Or.inr (Or.inr ?_)
        have hred : parsePlans (parseZips (initMap (targetsOf s)) z).1
            (some (hdr :: rows)) =
            if hdr.length = 5 then
              parsePlansLoop (parseZips (initMap (targetsOf s)) z).1 rows
            else ((parseZips (initMap (targetsOf s)) z).1,
              some PipelineError.SourceReadError) := rfl
        by_cases hh : hdr.length = 5
        · obtain ⟨e, he⟩ :=
            parsePlansLoop_err_len rows (parseZips (initMap (targetsOf s)) z).1 hbad
          exact ⟨e, by rw [hred, if_pos hh]; exact he⟩
        · exact ⟨PipelineError.SourceReadError, by rw [hred, if_neg hh]⟩
  · intro hdr rows hp hh h5 hbad h1 h2
    subst hp
    have h3 : (parsePlans (parseZips (initMap (targetsOf s)) z).1
        (some (hdr :: rows))).2 = some PipelineError.RateParseError := by
      have hred : parsePlans (parseZips (initMap (targetsOf s)) z).1
          (some (hdr :: rows)) =
          if hdr.length = 5 then
            parsePlansLoop (parseZips (initMap (targetsOf s)) z).1 rows
          else ((parseZips (initMap (targetsOf s)) z).1,
            some PipelineError.SourceReadError) := rfl
      rw [hred, if_pos hh]
      exact parsePlansLoop_err rows _ h5 hbad
    unfold mainOutput
    rw [h1, h2, h3]

/-- Witness for claim C6: the `Gold` row with rate `abc` aborts the whole
run with the rate-parse error. -/
theorem claim6_fatal_errors_witness :
    mainOutput srcSlcspA srcZipsA srcPlansBad =
      Except.error PipelineError.RateParseError :=
  (claim6_fatal_errors srcSlcspA srcZipsA srcPlansBad).2.2.2.2
    ["plan_id", "state", "metal_level", "rate", "rate_area"]
    [["x", "TX", "Gold", "abc", "3"]] rfl (by decide) (by decide)
    ⟨["x", "TX", "Gold", "abc", "3"], by decide, by decide⟩ (by decide) (by decide)

/-- Claim C10.  The two program versions run the same passes on the same
data: they build identical per-zip `RateData` maps, fail identically, and
on success emit the same set of distinct output lines; the outputs differ
only in line order and in multiplicity for duplicated target zips. -/
theorem claim10_versions_agree (s z p : Option (List Row)) :
    finalMapV1 s z p = finalMap s z p ∧
    (∀ e, mainOutputV1 s z p = Except.error e ↔ mainOutput s z p = Except.error e) ∧
    (∀ out1 out2, mainOutputV1 s z p = Except.ok out1 →
      mainOutput s z p = Except.ok out2 → out1.toFinset = out2.toFinset) := by
  refine ⟨finalMapV1_eq s z p, ?_, ?_⟩
  · intro e
    rw [mainOutputV1_eq]
    unfold mainOutput
    cases (parseSlcsp s).2 with
    | some e1 => exact Iff.rfl
    | none =>
      cases (parseZips (initMap (targetsOf s)) z).2 with
      | some e2 => exact Iff.rfl
      | none =>
        cases (parsePlans (parseZips (initMap (targetsOf s)) z).1 p).2 with
        | some e3 => exact Iff.rfl
        | none => exact ⟨fun hc => absurd hc (by simp), fun hc => absurd hc (by simp)⟩
  · intro out1 out2 hv1 hv2
    obtain ⟨h1, h2, h3, hout2⟩ := mainOutput_ok hv2
    have hout1 := mainOutputV1_ok hv1
    subst hout1
    subst hout2
    rw [List.toFinset_cons, List.toFinset_cons,
      toFinset_outLines (finalMap s z p) (targetsOf s)
        (by rw [akeys_finalMap]; exact nodup_akeys_initMap _)
        (fun x => by rw [akeys_finalMap, mem_akeys_initMap])]

/-- Witness for claim C10 on the fixture with a duplicated target zip:
the first version prints each distinct zip once, the second prints the
duplicate twice, and the distinct line sets coincide. -/
theorem claim10_versions_agree_witness :
    (["zipcode,rate", "11,207.60", "22,207.60"] : List String).toFinset =
      (["zipcode,rate", "11,207.60", "11,207.60", "22,207.60"] : List String).toFinset :=
  (claim10_versions_agree srcSlcspB srcZipsB srcPlansB).2.2
    ["zipcode,rate", "11,207.60", "22,207.60"]
    ["zipcode,rate", "11,207.60", "11,207.60", "22,207.60"] (by decide) (by decide)
